import Mathlib

/-
Verification of the lexer (lex.py) and the recursive-descent parser/translator
(parse.py) of the basic-compiler-python repository.

The embedding is a shallow one:

  * `LexState` carries the lexer's mutable fields (source buffer, cursor,
    line, column).  The buffer is the raw source text with the constructor's
    appended trailing newline.  Python stores `curChar` as a field that is
    always kept equal to `source[curPos]` (or the null sentinel once the
    cursor is at or beyond the end of the buffer); here `curChar` is derived
    from the buffer and the cursor, which is observationally identical.
  * Each `while` loop of the Python code becomes a fuel-indexed structural
    recursion.  Running out of fuel yields the `Res.div` marker; the fuel
    passed at every call site is `source.length + 1`, which is large enough
    that `Res.div` is produced exactly when the Python loop would run past
    the end of the buffer without its exit condition ever becoming true,
    i.e. exactly when the Python program would loop forever.
  * `sys.exit(69)` after printing one line to stderr becomes the `Res.err`
    constructor carrying an `Abort` value; `Abort.renderLine` rebuilds the
    diagnostic line exactly as the two `abort` methods format it and
    `Abort.exitCode` gives the process exit status.
  * The parser's statement tracing (`print("STATEMENT-...")` on stdout) has
    no bearing on tokens, emitted code or diagnostics and is not modelled.
  * emit.py is not among the provided sources; the `Emitter` structure below
    is modelled from the spec (see its doc comment).
-/

/-- The token kind catalogue of lex.py's `TokenType` enum.  Python names that
are Lean keywords (`let`, `then`, `end`, `do`) get a trailing underscore;
`TokenType.name` below reproduces the Python `kind.name` strings used in
diagnostics (where `if_`, `while_`, `and_`, `or_`, `not_`, `else_` keep the
underscore, exactly as CPython reports them). -/
inductive TokenType where
  | EOF | NEWLINE | NUMBER | IDENT | STRING | LPARENT | RPARENT
  | label | goto | print | input | let_ | if_ | then_ | end_ | while_
  | do_ | and_ | or_ | not_ | else_
  | EQ | PLUS | MINUS | ASTERISK | SLASH | EQEQ | NOTEQ | LT | LTEQ | GT | GTEQ
deriving DecidableEq, Repr

/-- The `kind.name` strings of the Python enum members, as interpolated into
`Parser.match`/`Parser.statement` error messages. -/
def TokenType.name : TokenType → String
  | .EOF => "EOF" | .NEWLINE => "NEWLINE" | .NUMBER => "NUMBER"
  | .IDENT => "IDENT" | .STRING => "STRING" | .LPARENT => "LPARENT"
  | .RPARENT => "RPARENT"
  | .label => "label" | .goto => "goto" | .print => "print" | .input => "input"
  | .let_ => "let" | .if_ => "if_" | .then_ => "then" | .end_ => "end"
  | .while_ => "while_" | .do_ => "do" | .and_ => "and_" | .or_ => "or_"
  | .not_ => "not_" | .else_ => "else_"
  | .EQ => "EQ" | .PLUS => "PLUS" | .MINUS => "MINUS" | .ASTERISK => "ASTERISK"
  | .SLASH => "SLASH" | .EQEQ => "EQEQ" | .NOTEQ => "NOTEQ" | .LT => "LT"
  | .LTEQ => "LTEQ" | .GT => "GT" | .GTEQ => "GTEQ"

/-- The keyword band of the `TokenType` enum (values 100..199), in member
order, with each reserved-word member's trailing underscore stripped — the
member texts `Token.isKeyword` compares against. -/
def keywordList : List (String × TokenType) :=
  [("label", .label), ("goto", .goto), ("print", .print), ("input", .input),
   ("let", .let_), ("if", .if_), ("then", .then_), ("end", .end_),
   ("while", .while_), ("do", .do_), ("and", .and_), ("or", .or_),
   ("not", .not_), ("else", .else_)]

/-- `Token.isKeyword` of lex.py: walk the keyword band in member order and
return the kind whose (underscore-stripped) name matches the text exactly. -/
def keywordKind (t : String) : Option TokenType :=
  match keywordList.find? (fun p => p.1 == t) with
  | some p => some p.2
  | none => none

/-- The `Token` value class of lex.py: text payload, kind, and the source
position (`curLine`, `linePos`) captured when the token was built. -/
structure Token where
  text : String
  kind : TokenType
  curLine : Nat
  linePos : Nat
deriving DecidableEq, Repr

/-- A fatal abort.  `lexA` is `Lexer.abort` (prints
`<sourceName>:<line>:<col> Lexing error. <msg>` and exits 69), `parseA` is
`Parser.abort` (prints `<sourceName>:<line>:<col> Error: <msg>` and
exits 69). -/
inductive Abort where
  | lexA (sourceName : String) (line col : Nat) (msg : String)
  | parseA (sourceName : String) (line col : Nat) (msg : String)
deriving DecidableEq, Repr

/-- The exact stderr line each abort writes. -/
def Abort.renderLine : Abort → String
  | .lexA n l c m => n ++ ":" ++ Nat.repr l ++ ":" ++ Nat.repr c ++ " Lexing error. " ++ m
  | .parseA n l c m => n ++ ":" ++ Nat.repr l ++ ":" ++ Nat.repr c ++ " Error: " ++ m

/-- The process exit status of each abort (`sys.exit(69)` at both sites). -/
def Abort.exitCode : Abort → Nat
  | .lexA _ _ _ _ => 69
  | .parseA _ _ _ _ => 69

/-- Result of running a piece of the translator: `div` marks a run that never
terminates (or, for the fuel-indexed parser loops, fuel exhaustion), `err` a
fatal abort, `ok` a normal return. -/
inductive Res (α : Type) where
  | div : Res α
  | err : Abort → Res α
  | ok : α → Res α
deriving DecidableEq, Repr

def Res.bind {α β : Type} : Res α → (α → Res β) → Res β
  | .div, _ => .div
  | .err a, _ => .err a
  | .ok v, f => f v

/-- The Lexer's state: source name (diagnostics only), buffer (raw text plus
the appended trailing newline), cursor, current line and current column. -/
structure LexState where
  srcName : String
  source : List Char
  curPos : Nat
  curLine : Nat
  linePos : Nat
deriving DecidableEq, Repr

/-- The current character: `source[curPos]`, or the null sentinel once the
cursor is at or beyond the end of the buffer (`Lexer.nextChar`'s else/then
assignment). -/
def curChar (st : LexState) : Char := st.source.getD st.curPos '\x00'

/-- `Lexer.peek`: the lookahead character, without consuming. -/
def peekChar (st : LexState) : Char := st.source.getD (st.curPos + 1) '\x00'

/-- First half of `Lexer.nextChar`: if the character just being consumed is a
newline, bump the line counter and reset the column to 1. -/
def nextCharA (st : LexState) : LexState :=
  if curChar st = '\n' then { st with curLine := st.curLine + 1, linePos := 1 } else st

/-- `Lexer.nextChar`: the conditional line/column reset above, then the
unconditional `curPos += 1; linePos += 1`. -/
def nextChar (st : LexState) : LexState :=
  let st1 := nextCharA st
  { st1 with curPos := st1.curPos + 1, linePos := st1.linePos + 1 }

/-- The whitespace skipped by `Lexer.skipWhitespace` (newlines excluded). -/
def isWsChar (c : Char) : Bool := c = ' ' || c = '\t' || c = '\r'

/-- Characters that are fatal inside a string literal (lex.py line 104). -/
def isIllegalStrChar (c : Char) : Bool :=
  c = '\r' || c = '\n' || c = '\t' || c = '\\' || c = '%'

/-- `Lexer.skipWhitespace`: `while curChar in {' ','\t','\r'}: nextChar()`. -/
def skipWhitespace : Nat → LexState → Res LexState
  | 0, _ => .div
  | fuel+1, st => if isWsChar (curChar st) then skipWhitespace fuel (nextChar st) else .ok st

/-- The loop body of `Lexer.skipComment`: `while curChar != '\n': nextChar()`.
If no newline remains at or after the cursor the Python loop never exits
(`curChar` stays at the null sentinel); with the fuel used at the call site
that is exactly the `Res.div` outcome. -/
def skipCommentLoop : Nat → LexState → Res LexState
  | 0, _ => .div
  | fuel+1, st => if curChar st = '\n' then .ok st else skipCommentLoop fuel (nextChar st)

/-- `Lexer.skipComment`: enter the loop only on a `#`. -/
def skipComment (fuel : Nat) (st : LexState) : Res LexState :=
  if curChar st = '#' then skipCommentLoop fuel st else .ok st

/-- The string-literal scan of `Lexer.getToken` (lines 103..106): stop at the
closing quote, abort on an illegal character, otherwise keep consuming. -/
def scanStr : Nat → LexState → Res LexState
  | 0, _ => .div
  | fuel+1, st =>
    if curChar st = '"' then .ok st
    else if isIllegalStrChar (curChar st) then
      .err (.lexA st.srcName st.curLine st.linePos
        ("Illegal character in string: " ++ String.mk [curChar st]))
    else scanStr fuel (nextChar st)

/-- The digit-run scan of `Lexer.getToken`: `while peek().isdigit(): nextChar()`. -/
def scanDigits : Nat → LexState → Res LexState
  | 0, _ => .div
  | fuel+1, st => if (peekChar st).isDigit then scanDigits fuel (nextChar st) else .ok st

/-- The alphabetic-run scan of `Lexer.getToken`: `while peek().isalpha(): nextChar()`.
(Python's `str.isalpha` agrees with `Char.isAlpha` on ASCII sources.) -/
def scanAlpha : Nat → LexState → Res LexState
  | 0, _ => .div
  | fuel+1, st => if (peekChar st).isAlpha then scanAlpha fuel (nextChar st) else .ok st

/-- Python's `self.source[a:b]`. -/
def sliceStr (l : List Char) (a b : Nat) : String := String.mk ((l.drop a).take (b - a))

/-- The string-literal branch of `Lexer.getToken` (lines 99..109), entered on
a `"`: step past the quote, scan to the closing quote, slice the text, build
the token, advance past the quote. -/
def stringBranch (st : LexState) : Res (Token × LexState) :=
  let F := st.source.length + 1
  let st2 := nextChar st
  let startPos := st2.curPos
  (scanStr F st2).bind fun se =>
    .ok (⟨sliceStr se.source startPos se.curPos, .STRING, se.curLine, se.linePos⟩, nextChar se)

/-- The numeric-literal branch of `Lexer.getToken` (lines 114..129), entered
on a digit: scan the digit run, optionally a decimal point that must be
followed by a digit and a second digit run, slice the text inclusively. -/
def numberBranch (st : LexState) : Res (Token × LexState) :=
  let F := st.source.length + 1
  let startPos := st.curPos
  (scanDigits F st).bind fun sa2 =>
  if peekChar sa2 = '.' then
    let sb := nextChar sa2
    if ¬ (peekChar sb).isDigit then
      .err (.lexA sb.srcName sb.curLine sb.linePos
        ("Illegal character in number: " ++ String.mk [peekChar sb]))
    else
      (scanDigits F sb).bind fun sc =>
        .ok (⟨sliceStr sc.source startPos (sc.curPos + 1), .NUMBER, sc.curLine, sc.linePos⟩,
          nextChar sc)
  else
    .ok (⟨sliceStr sa2.source startPos (sa2.curPos + 1), .NUMBER, sa2.curLine, sa2.linePos⟩,
      nextChar sa2)

/-- The identifier/keyword branch of `Lexer.getToken` (lines 130..140),
entered on an alphabetic character: scan the alphabetic run, slice it, and
classify it against the keyword catalogue. -/
def identBranch (st : LexState) : Res (Token × LexState) :=
  let F := st.source.length + 1
  let startPos := st.curPos
  (scanAlpha F st).bind fun sa2 =>
    let text := sliceStr sa2.source startPos (sa2.curPos + 1)
    let kind := match keywordKind text with
      | some k => k
      | none => TokenType.IDENT
    .ok (⟨text, kind, sa2.curLine, sa2.linePos⟩, nextChar sa2)

/-- The dispatch chain of `Lexer.getToken` (lines 58..150): decide the token
from its first character, build it, then advance once past it. -/
def tokenDispatch (st : LexState) : Res (Token × LexState) :=
  let c := curChar st
  if c = '+' then .ok (⟨"+", .PLUS, st.curLine, st.linePos⟩, nextChar st)
  else if c = '-' then .ok (⟨"-", .MINUS, st.curLine, st.linePos⟩, nextChar st)
  else if c = '*' then .ok (⟨"*", .ASTERISK, st.curLine, st.linePos⟩, nextChar st)
  else if c = '/' then .ok (⟨"/", .SLASH, st.curLine, st.linePos⟩, nextChar st)
  else if c = '=' then
    if peekChar st = '=' then
      let st2 := nextChar st
      .ok (⟨"==", .EQEQ, st2.curLine, st2.linePos⟩, nextChar st2)
    else .ok (⟨"=", .EQ, st.curLine, st.linePos⟩, nextChar st)
  else if c = '>' then
    if peekChar st = '=' then
      let st2 := nextChar st
      .ok (⟨">=", .GTEQ, st2.curLine, st2.linePos⟩, nextChar st2)
    else .ok (⟨">", .GT, st.curLine, st.linePos⟩, nextChar st)
  else if c = '<' then
    if peekChar st = '=' then
      let st2 := nextChar st
      .ok (⟨"<=", .LTEQ, st2.curLine, st2.linePos⟩, nextChar st2)
    else .ok (⟨"<", .LT, st.curLine, st.linePos⟩, nextChar st)
  else if c = '!' then
    if peekChar st = '=' then
      let st2 := nextChar st
      .ok (⟨"!=", .NOTEQ, st2.curLine, st2.linePos⟩, nextChar st2)
    else .err (.lexA st.srcName st.curLine st.linePos
      ("Expected !=, got !" ++ String.mk [peekChar st]))
  else if c = '"' then stringBranch st
  else if c = '(' then .ok (⟨"(", .LPARENT, st.curLine, st.linePos⟩, nextChar st)
  else if c = ')' then .ok (⟨")", .RPARENT, st.curLine, st.linePos⟩, nextChar st)
  else if c.isDigit then numberBranch st
  else if c.isAlpha then identBranch st
  else if c = '\n' then .ok (⟨"\n", .NEWLINE, st.curLine, st.linePos⟩, nextChar st)
  else if c = '\x00' then .ok (⟨"\x00", .EOF, st.curLine, st.linePos⟩, nextChar st)
  else .err (.lexA st.srcName st.curLine st.linePos ("Unknown token: " ++ String.mk [c]))

/-- `Lexer.getToken`: skip whitespace, skip a comment, then dispatch on the
current character. -/
def getToken (st0 : LexState) : Res (Token × LexState) :=
  let F := st0.source.length + 1
  (skipWhitespace F st0).bind fun sa =>
  (skipComment F sa).bind fun st => tokenDispatch st

/-- `Lexer.__init__`: append the trailing newline, then the first `nextChar`
takes the cursor from -1 to 0 with line 1, column 1. -/
def initLexer (name raw : String) : LexState :=
  ⟨name, raw.toList ++ ['\n'], 0, 1, 1⟩

/-- Repeated `getToken` calls: `getTokenN n st` is the result of the
`(n+1)`-st consecutive call starting from `st`. -/
def getTokenN : Nat → LexState → Res (Token × LexState)
  | 0, st => getToken st
  | n+1, st => (getToken st).bind fun p => getTokenN n p.2

/-- Drive the lexer to completion: collect tokens until (and including) the
first end-of-input token. -/
def lexRun : Nat → LexState → Res (List Token)
  | 0, _ => .div
  | fuel+1, st =>
    (getToken st).bind fun p =>
      if p.1.kind = .EOF then .ok [p.1]
      else (lexRun fuel p.2).bind fun ts => .ok (p.1 :: ts)

/-- Tokenize a whole raw source text (the fuel bounds the token count, which
is at most the buffer length plus one). -/
def tokenize (name raw : String) : Res (List Token) :=
  lexRun (raw.length + 3) (initLexer name raw)

/-- Modelled from the spec: the output accumulator (emit.py is not among the
provided sources).  It exposes append-to-header and append-to-body, each in
an "append inline, no terminator" and an "append a full line" mode, and
finalization concatenates header-then-body; the core only ever appends. -/
structure Emitter where
  header : String
  code : String
deriving DecidableEq, Repr

/-- Append-to-body, inline mode (`Emitter.emit`). -/
def emit (em : Emitter) (s : String) : Emitter := { em with code := em.code ++ s }

/-- Append-to-body, full-line mode (`Emitter.emitLine`). -/
def emitLine (em : Emitter) (s : String) : Emitter := { em with code := em.code ++ s ++ "\n" }

/-- Append-to-header, full-line mode (`Emitter.headerLine`). -/
def headerLine (em : Emitter) (s : String) : Emitter :=
  { em with header := em.header ++ s ++ "\n" }

/-- The Parser's state: the two-token lookahead window, the lexer it pulls
from, the three name sets and the emitter it drives.  Python's `set`s are
carried as insertion-ordered duplicate-free lists; only membership is ever
used, except for the end-of-program iteration over `labelsGotoed`, whose
order in CPython is the string-hash iteration order of the set (see
`checkLabels`). -/
structure PState where
  lex : LexState
  curToken : Token
  peekToken : Token
  symbols : List String
  labelsDeclared : List String
  labelsGotoed : List String
  em : Emitter
deriving DecidableEq, Repr

/-- `Parser.nextToken`: slide the lookahead window by one lexer pull. -/
def nextTokenP (st : PState) : Res PState :=
  match getToken st.lex with
  | .div => .div
  | .err a => .err a
  | .ok (t, lx) => .ok { st with curToken := st.peekToken, peekToken := t, lex := lx }

/-- `Parser.abort` applied at the current token, as every parser-side fatal
error is. -/
def parseAbort (st : PState) (msg : String) : Abort :=
  .parseA st.lex.srcName st.curToken.curLine st.curToken.linePos msg

/-- `Parser.match`: require the current token's kind, then advance. -/
def matchTok (k : TokenType) (st : PState) : Res PState :=
  if st.curToken.kind = k then nextTokenP st
  else .err (parseAbort st ("Expected " ++ k.name ++ ", got " ++ st.curToken.text))

/-- `Parser.__init__`: two lexer pulls fill `curToken` and `peekToken`. -/
def parserInit (name raw : String) : Res PState :=
  match getToken (initLexer name raw) with
  | .div => .div
  | .err a => .err a
  | .ok (t1, lx1) =>
    match getToken lx1 with
    | .div => .div
    | .err a => .err a
    | .ok (t2, lx2) => .ok ⟨lx2, t1, t2, [], [], [], ⟨"", ""⟩⟩

/-- `Parser.isComparisonOp`. -/
def isCompOp (k : TokenType) : Bool :=
  k = .GT || k = .GTEQ || k = .LT || k = .LTEQ || k = .EQEQ || k = .NOTEQ

/-- The `while checkToken(NEWLINE): nextToken()` loops (statement stripping in
`program`, and the tail of `nl`). -/
def skipNewlines : Nat → PState → Res PState
  | 0, _ => .div
  | fuel+1, st =>
    if st.curToken.kind = .NEWLINE then (nextTokenP st).bind (skipNewlines fuel) else .ok st

/-- `Parser.nl`: one required newline, then any number of further ones. -/
def nlRule (fuel : Nat) (st : PState) : Res PState :=
  (matchTok .NEWLINE st).bind (skipNewlines fuel)

/-- `Parser.value` (the primary rule): number, string, or an identifier that
must already be a member of `symbols`. -/
def value (st : PState) : Res PState :=
  if st.curToken.kind = .NUMBER then
    nextTokenP { st with em := emit st.em st.curToken.text }
  else if st.curToken.kind = .STRING then
    nextTokenP { st with em := emit st.em ("\"" ++ st.curToken.text ++ "\"") }
  else if st.curToken.kind = .IDENT then
    if st.curToken.text ∈ st.symbols then
      nextTokenP { st with em := emit st.em st.curToken.text }
    else .err (parseAbort st ("Referencing variable before assignment: " ++ st.curToken.text))
  else .err (parseAbort st ("Unexpected token at " ++ st.curToken.text))

/-- `Parser.unary`: an optional sign, then a primary. -/
def unary (st : PState) : Res PState :=
  if st.curToken.kind = .PLUS || st.curToken.kind = .MINUS then
    (nextTokenP { st with em := emit st.em st.curToken.text }).bind value
  else value st

/-- The `while SLASH or ASTERISK` loop of `Parser.term`. -/
def slashLoop : Nat → PState → Res PState
  | 0, _ => .div
  | fuel+1, st =>
    if st.curToken.kind = .SLASH || st.curToken.kind = .ASTERISK then
      ((nextTokenP { st with em := emit st.em st.curToken.text }).bind unary).bind
        (slashLoop fuel)
    else .ok st

/-- `Parser.term`: a unary, then any number of `*`/`/` unaries. -/
def term (fuel : Nat) (st : PState) : Res PState := (unary st).bind (slashLoop fuel)

/-- The `while PLUS or MINUS` loop of `Parser.expression`. -/
def plusMinusLoop : Nat → PState → Res PState
  | 0, _ => .div
  | fuel+1, st =>
    if st.curToken.kind = .PLUS || st.curToken.kind = .MINUS then
      ((nextTokenP { st with em := emit st.em st.curToken.text }).bind (term fuel)).bind
        (plusMinusLoop fuel)
    else .ok st

/-- `Parser.expression`: optional `not`, at most one leading `(`, a term with
`+`/`-` continuations, an optional right-recursive `and`, and — when a `(`
was consumed — `match(RPARENT)` followed by one more `nextToken()`, exactly
as the source does (note `match` itself already advances past the `)`). -/
def expression : Nat → PState → Res PState
  | 0, _ => .div
  | fuel+1, st0 =>
    (if st0.curToken.kind = .not_ then nextTokenP { st0 with em := emit st0.em "!" }
     else .ok st0).bind fun st1 =>
    (if st1.curToken.kind = .LPARENT then
      (nextTokenP { st1 with em := emit st1.em "(" }).bind fun s => .ok (true, s)
     else .ok (false, st1)).bind fun hp =>
    (term fuel hp.2).bind fun st3 =>
    (plusMinusLoop fuel st3).bind fun st4 =>
    (if st4.curToken.kind = .and_ then
      (nextTokenP { st4 with em := emit st4.em "&&" }).bind (expression fuel)
     else .ok st4).bind fun st5 =>
    if hp.1 then
      (matchTok .RPARENT st5).bind fun st6 =>
      nextTokenP { st6 with em := emit st6.em ")" }
    else .ok st5

/-- The `while isComparisonOp` loop of `Parser.comparison`. -/
def compLoop : Nat → PState → Res PState
  | 0, _ => .div
  | fuel+1, st =>
    if isCompOp st.curToken.kind then
      ((nextTokenP { st with em := emit st.em st.curToken.text }).bind (expression fuel)).bind
        (compLoop fuel)
    else .ok st

/-- `Parser.comparison`: an expression, at least one comparison operator and
expression, then any number more. -/
def comparison (fuel : Nat) (st : PState) : Res PState :=
  (expression fuel st).bind fun s1 =>
  if isCompOp s1.curToken.kind then
    ((nextTokenP { s1 with em := emit s1.em s1.curToken.text }).bind (expression fuel)).bind
      (compLoop fuel)
  else
    .err (parseAbort s1 ("Expected comparison operator at: " ++ s1.curToken.text ++
      " got (" ++ s1.curToken.kind.name ++ ")"))

/-- The first-occurrence declaration shared by the `let` and `input`
branches of `Parser.statement`: if the current token's text is not yet in
`symbols`, add it and emit the one-time header declaration. -/
def declareVar (st : PState) : PState :=
  if st.curToken.text ∈ st.symbols then st
  else { st with symbols := st.symbols ++ [st.curToken.text],
                 em := headerLine st.em ("float " ++ st.curToken.text ++ ";") }

/-- `labelsGotoed.add` (`set.add`: membership-deduplicating). -/
def addGotoed (st : PState) (t : String) : PState :=
  if t ∈ st.labelsGotoed then st else { st with labelsGotoed := st.labelsGotoed ++ [t] }

/-- Which loop of `Parser.statement` is running: a single statement, the
`while not end` body loop of an `if` (with its `else if`/`else` inspection),
or the plain body loop of a `while`. -/
inductive StmtMode where
  | single
  | ifBody
  | whileBody
deriving DecidableEq, Repr

/-- `Parser.statement` and its two body loops, fused into one fuel-indexed
recursion (the source's recursion is `statement` calling itself through the
`if`/`while` body loops).  `single` is one full statement including the
trailing `nl`; `ifBody`/`whileBody` are the `while not end` loops. -/
def stmtF : Nat → StmtMode → PState → Res PState
  | 0, _, _ => .div
  | fuel+1, .ifBody, st =>
    if st.curToken.kind = .end_ then .ok st
    else
      (if st.curToken.kind = .else_ ∧ st.peekToken.kind = .if_ then
        (nextTokenP { st with em := emit st.em "\x7delse if(" }).bind fun s1 =>
        (nextTokenP s1).bind fun s2 =>
        (comparison fuel s2).bind fun s3 =>
        (matchTok .then_ s3).bind fun s4 =>
        (nlRule fuel s4).bind fun s5 =>
        .ok { s5 with em := emitLine s5.em ")\x7b" }
      else if st.curToken.kind = .else_ then
        (nextTokenP st).bind fun s1 =>
        (nlRule fuel s1).bind fun s2 =>
        .ok { s2 with em := emitLine s2.em "\x7delse\x7b" }
      else .ok st).bind fun s6 =>
      (stmtF fuel .single s6).bind fun s7 => stmtF fuel .ifBody s7
  | fuel+1, .whileBody, st =>
    if st.curToken.kind = .end_ then .ok st
    else (stmtF fuel .single st).bind fun s1 => stmtF fuel .whileBody s1
  | fuel+1, .single, st =>
    (if st.curToken.kind = .print then
      (nextTokenP st).bind fun s1 =>
      if s1.curToken.kind = .STRING then
        nextTokenP { s1 with em := emitLine s1.em ("printf(\"" ++ s1.curToken.text ++ "\\n\");") }
      else
        (expression fuel { s1 with em := emit s1.em "printf(\"%.2f\\n\", (float)(" }).bind
          fun s2 => .ok { s2 with em := emitLine s2.em "));" }
    else if st.curToken.kind = .if_ then
      (nextTokenP { st with em := emit st.em "if(" }).bind fun s1 =>
      (comparison fuel s1).bind fun s2 =>
      (matchTok .then_ s2).bind fun s3 =>
      (nlRule fuel s3).bind fun s4 =>
      (stmtF fuel .ifBody { s4 with em := emitLine s4.em ")\x7b" }).bind fun s5 =>
      (matchTok .end_ s5).bind fun s6 =>
      .ok { s6 with em := emitLine s6.em "\x7d" }
    else if st.curToken.kind = .while_ then
      (nextTokenP { st with em := emit st.em "while (" }).bind fun s1 =>
      (comparison fuel s1).bind fun s2 =>
      (matchTok .do_ s2).bind fun s3 =>
      (nlRule fuel s3).bind fun s4 =>
      (stmtF fuel .whileBody { s4 with em := emitLine s4.em ")\x7b" }).bind fun s5 =>
      (matchTok .end_ s5).bind fun s6 =>
      .ok { s6 with em := emitLine s6.em "\x7d" }
    else if st.curToken.kind = .label then
      (nextTokenP st).bind fun s1 =>
      if s1.curToken.text ∈ s1.labelsDeclared then
        .err (parseAbort s1 ("Label already exists: " ++ s1.curToken.text))
      else
        matchTok .IDENT
          { s1 with labelsDeclared := s1.labelsDeclared ++ [s1.curToken.text],
                    em := emitLine s1.em (s1.curToken.text ++ ":") }
    else if st.curToken.kind = .goto then
      (nextTokenP st).bind fun s1 =>
      let s2 := addGotoed s1 s1.curToken.text
      matchTok .IDENT { s2 with em := emitLine s2.em ("goto " ++ s2.curToken.text ++ ";") }
    else if st.curToken.kind = .let_ then
      (nextTokenP st).bind fun s1 =>
      let s2 := declareVar s1
      (matchTok .IDENT { s2 with em := emit s2.em (s2.curToken.text ++ "=") }).bind fun s3 =>
      (matchTok .EQ s3).bind fun s4 =>
      (expression fuel s4).bind fun s5 =>
      .ok { s5 with em := emitLine s5.em ";" }
    else if st.curToken.kind = .input then
      (nextTokenP st).bind fun s1 =>
      let s2 := declareVar s1
      let e1 := emitLine s2.em ("if(0 == scanf(\"%f\", &" ++ s2.curToken.text ++ ")) \x7b")
      let e2 := emitLine e1 (s2.curToken.text ++ " = 0;")
      let e3 := emitLine (emit e2 "scanf(\"%") "*s\");"
      matchTok .IDENT { s2 with em := emitLine e3 "\x7d" }
    else if st.curToken.kind = .IDENT then
      (if st.peekToken.kind = .EQ then
        ((nextTokenP { st with em := emit st.em (st.curToken.text ++ "=") }).bind
          nextTokenP).bind (expression fuel)
      else expression fuel st).bind fun s1 =>
      .ok { s1 with em := emitLine s1.em ";" }
    else
      .err (parseAbort st ("Invalid statement at " ++ st.curToken.text ++
        " (" ++ st.curToken.kind.name ++ ")"))).bind fun sEnd =>
    nlRule fuel sEnd

/-- The `while not checkToken(EOF): statement()` loop of `Parser.program`. -/
def stmtsUntilEOF : Nat → PState → Res PState
  | 0, _ => .div
  | fuel+1, st =>
    if st.curToken.kind = .EOF then .ok st
    else (stmtF fuel .single st).bind (stmtsUntilEOF fuel)

/-- The two boilerplate header lines `Parser.program` emits before parsing. -/
def emitHeaders (st : PState) : PState :=
  { st with em := headerLine (headerLine st.em "#include <stdio.h>") "int main(void) \x7b" }

/-- The parsing phase of `Parser.program`: emit the header boilerplate, strip
leading newlines, then parse statements until end-of-input. -/
def parsePhase (fuel : Nat) (st : PState) : Res PState :=
  (skipNewlines fuel (emitHeaders st)).bind (stmtsUntilEOF fuel)

/-- The end-of-program check of `Parser.program`: walk the referenced labels
and abort on the first one that was never declared.  CPython iterates the
`labelsGotoed` set in its string-hash order, which is not a function of the
source text; the enumeration is therefore an explicit parameter here, and
callers pass some enumeration of the set. -/
def checkLabels (name : String) (tok : Token) (declared : List String) :
    List String → Res Unit
  | [] => .ok ()
  | l :: rest =>
    if l ∈ declared then checkLabels name tok declared rest
    else .err (.parseA name tok.curLine tok.linePos
      ("Attempting to GOTO to undeclared label: " ++ l))

/-- `Parser.program`: parse, emit the closing boilerplate, then run the
goto/label check (here with the insertion-order enumeration of
`labelsGotoed`). -/
def program (fuel : Nat) (st : PState) : Res Emitter :=
  (parsePhase fuel st).bind fun st2 =>
  let em2 := emitLine (emitLine st2.em "return 0;") "\x7d"
  (checkLabels st2.lex.srcName st2.curToken st2.labelsDeclared st2.labelsGotoed).bind fun _ =>
  .ok em2

/-- One full translation run on a raw source text. -/
def translateRun (name raw : String) (fuel : Nat) : Res Emitter :=
  (parserInit name raw).bind (program fuel)

/-- The state after the parsing phase of a full run (used to state the
end-of-program properties). -/
def translatePhaseRun (name raw : String) (fuel : Nat) : Res PState :=
  (parserInit name raw).bind (parsePhase fuel)

/-- Does `needle` occur at the head of `hay`? -/
def leadMatch : List Char → List Char → Bool
  | [], _ => true
  | _ :: _, [] => false
  | c :: cs, d :: ds => c = d && leadMatch cs ds

/-- Does `needle` occur anywhere inside `hay`? -/
def occursIn (needle : List Char) : List Char → Bool
  | [] => leadMatch needle []
  | d :: ds => leadMatch needle (d :: ds) || occursIn needle ds

theorem checkLabels_all (name : String) (tok : Token) (decl : List String) :
    ∀ order : List String, (∀ l, l ∈ order → l ∈ decl) →
      checkLabels name tok decl order = .ok () := by
  intro order
  induction order with
  | nil => intro _; rfl
  | cons a rest ih =>
    intro h
    have ha : a ∈ decl := h a (by simp)
    simp only [checkLabels, if_pos ha]
    exact ih (fun l hl => h l (by simp [hl]))

theorem checkLabels_missing (name : String) (tok : Token) (decl : List String) :
    ∀ (order : List String) (l : String), l ∈ order → l ∉ decl →
      ∃ l2, l2 ∈ order ∧ l2 ∉ decl ∧
        checkLabels name tok decl order = .err (.parseA name tok.curLine tok.linePos
          ("Attempting to GOTO to undeclared label: " ++ l2)) := by
  intro order
  induction order with
  | nil => intro l hl _; simp at hl
  | cons a rest ih =>
    intro l hl hnd
    by_cases hd : a ∈ decl
    · have hrest : l ∈ rest := by
        rcases List.mem_cons.mp hl with h1 | h2
        · exact absurd (h1 ▸ hd) hnd
        · exact h2
      obtain ⟨l2, h1, h2, h3⟩ := ih l hrest hnd
      exact ⟨l2, by simp [h1], h2, by simp only [checkLabels, if_pos hd]; exact h3⟩
    · exact ⟨a, by simp, hd, by simp only [checkLabels, if_neg hd]⟩

/-- C4: if the parsing phase of a run succeeds, then the end-of-program check
passes and translation returns the completed output whenever every
goto-referenced label is declared; and whenever some goto-referenced label
was never declared, the run aborts with the semantic error naming an
undeclared goto-referenced label.  The abort is issued by `checkLabels`,
which `program` reaches only after `parsePhase` has consumed the full
statement list and the closing boilerplate has been emitted. -/
theorem c4_goto_label_resolution : ∀ (fuel : Nat) (name raw : String) (st2 : PState),
    translatePhaseRun name raw fuel = .ok st2 →
    ((∀ l, l ∈ st2.labelsGotoed → l ∈ st2.labelsDeclared) →
      translateRun name raw fuel = .ok (emitLine (emitLine st2.em "return 0;") "\x7d")) ∧
    (∀ l, l ∈ st2.labelsGotoed → l ∉ st2.labelsDeclared →
      ∃ l2, l2 ∈ st2.labelsGotoed ∧ l2 ∉ st2.labelsDeclared ∧
        translateRun name raw fuel = .err (.parseA st2.lex.srcName st2.curToken.curLine
          st2.curToken.linePos ("Attempting to GOTO to undeclared label: " ++ l2))) := by
  intro fuel name raw st2 h
  unfold translatePhaseRun at h
  cases hpi : parserInit name raw with
  | div => rw [hpi] at h; exact absurd h (by simp [Res.bind])
  | err a => rw [hpi] at h; exact absurd h (by simp [Res.bind])
  | ok st0 =>
    rw [hpi] at h
    simp only [Res.bind] at h
    constructor
    · intro hall
      unfold translateRun program
      rw [hpi]
      simp only [Res.bind]
      rw [h]
      simp only [Res.bind]
      rw [checkLabels_all _ _ _ _ hall]
    · intro l hl hnd
      obtain ⟨l2, h1, h2, h3⟩ := checkLabels_missing st2.lex.srcName st2.curToken
        st2.labelsDeclared st2.labelsGotoed l hl hnd
      refine ⟨l2, h1, h2, ?_⟩
      unfold translateRun program
      rw [hpi]
      simp only [Res.bind]
      rw [h]
      simp only [Res.bind]
      rw [h3]

theorem c4_goto_label_resolution_w :
    (∃ em, translateRun "f" "label a\ngoto a\n" 32 = .ok em) ∧
    (∃ a, translateRun "f" "goto missing\n" 32 = .err a) := by
  constructor
  · exact ⟨_, (c4_goto_label_resolution 32 "f" "label a\ngoto a\n" _ rfl).1 (by decide)⟩
  · obtain ⟨l2, -, -, h⟩ := (c4_goto_label_resolution 32 "f" "goto missing\n" _ rfl).2
      "missing" (by decide) (by decide)
    exact ⟨_, h⟩

/-- C1: the grammar-conforming program `print (1)` followed by `print 2` is
rejected.  After the parenthesised expression, `Parser.expression` runs
`match(RPARENT)` — which already advances past the `)` — and then one more
`nextToken()`, so the newline that terminated the first statement has been
swallowed and `nl()` aborts on the second statement's `print` keyword.  Per
the claim (and the spec's grammar) the current token after the expression
should be the newline immediately following `)`, and the program should be
accepted. -/
theorem c1_paren_overconsume :
    translateRun "f" "print (1)\nprint 2\n" 32 =
      .err (.parseA "f" 2 6 "Expected NEWLINE, got print") := by
  rfl

/-- C2: the bare assignment `y = x` with `y` never declared by `let`/`input`
is accepted: the statement dispatcher's assignment path consumes the
left-hand-side identifier without any `symbols` membership check (only the
right-hand side goes through `value`), so no use-before-definition error is
raised and the translated output assigns to `y` although no declaration
`float y;` was ever emitted to the header. -/
theorem c2_assign_lhs_unchecked :
    translateRun "f" "let x = 1\ny = x\n" 32 =
      .ok ⟨"#include <stdio.h>\nint main(void) \x7b\nfloat x;\n",
           "x=1;\ny=x;\nreturn 0;\n\x7d\n"⟩ ∧
    occursIn "float y;".toList
      "#include <stdio.h>\nint main(void) \x7b\nfloat x;\n".toList = false ∧
    occursIn "y=x;".toList "x=1;\ny=x;\nreturn 0;\n\x7d\n".toList = true := by
  exact ⟨rfl, by decide, by decide⟩

/-- C5: referencing an identifier that is not yet in `symbols` inside a
primary value is an immediate fatal semantic error, raised by `value` at the
very token of the reference (so nothing after it is parsed); concretely,
`print x` before any `let`/`input` of `x` aborts at line 1 column 7 and the
later `let x = 1` is never reached. -/
theorem c5_use_before_definition :
    (∀ (st : PState) (x : String), st.curToken.kind = .IDENT → st.curToken.text = x →
      x ∉ st.symbols →
      value st = .err (.parseA st.lex.srcName st.curToken.curLine st.curToken.linePos
        ("Referencing variable before assignment: " ++ x))) ∧
    translateRun "f" "print x\nlet x = 1\n" 32 =
      .err (.parseA "f" 1 7 "Referencing variable before assignment: x") := by
  constructor
  · intro st x hk ht hmem
    subst ht
    simp [value, hk, hmem, parseAbort]
  · rfl

theorem c5_use_before_definition_w :
    value ⟨⟨"f", ['\n'], 0, 1, 1⟩, ⟨"y", .IDENT, 1, 1⟩, ⟨"\n", .NEWLINE, 1, 2⟩,
        [], [], [], ⟨"", ""⟩⟩ =
      .err (.parseA "f" 1 1 "Referencing variable before assignment: y") :=
  c5_use_before_definition.1
    ⟨⟨"f", ['\n'], 0, 1, 1⟩, ⟨"y", .IDENT, 1, 1⟩, ⟨"\n", .NEWLINE, 1, 2⟩, [], [], [], ⟨"", ""⟩⟩
    "y" rfl rfl (by decide)

/-- C6: the token stream of the source `a\nb`.  The identifier `b`, the first
character of line 2, is reported at column 2, not column 1: `nextChar` resets
`linePos` to 1 on consuming the newline and then unconditionally increments
it (only line 1 starts at column 1, because the constructor starts `linePos`
at 0).  The claim says the first character of a new line is reported at
column 1. -/
theorem c6_column_after_newline :
    tokenize "f" "a\nb" =
      .ok [⟨"a", .IDENT, 1, 1⟩, ⟨"\n", .NEWLINE, 1, 2⟩, ⟨"b", .IDENT, 2, 2⟩,
           ⟨"\n", .NEWLINE, 2, 3⟩, ⟨"\x00", .EOF, 3, 2⟩] := by
  rfl

/-- C7 counterexample: the bare `!` aborts with the diagnostic line
`f:1:1 Lexing error. Expected !=, got !` (plus the peeked newline); the line
contains ` Lexing error. ` — a period — and nowhere the literal text
` error: ` required by the claimed `<phase> error: <message>` format. -/
theorem c7_diag_format_cex :
    translateRun "f" "!" 32 = .err (.lexA "f" 1 1 "Expected !=, got !\n") ∧
    Abort.renderLine (.lexA "f" 1 1 "Expected !=, got !\n") =
      "f:1:1 Lexing error. Expected !=, got !\n" ∧
    occursIn " error: ".toList "f:1:1 Lexing error. Expected !=, got !\n".toList = false := by
  exact ⟨rfl, rfl, by decide⟩

/-- C7 amended: every fatal error of a run is one diagnostic line of the form
`<sourceName>:<line>:<column> Lexing error. <message>` (lexical errors) or
`<sourceName>:<line>:<column> Error: <message>` (syntactic and semantic
errors), and the process exit status is 69 for every error kind. -/
theorem c7_diag_format_amended : ∀ (name raw : String) (fuel : Nat) (a : Abort),
    translateRun name raw fuel = .err a →
    a.exitCode = 69 ∧
    ((∃ n l c m, a = .lexA n l c m ∧
        a.renderLine = n ++ ":" ++ Nat.repr l ++ ":" ++ Nat.repr c ++ " Lexing error. " ++ m) ∨
     (∃ n l c m, a = .parseA n l c m ∧
        a.renderLine = n ++ ":" ++ Nat.repr l ++ ":" ++ Nat.repr c ++ " Error: " ++ m)) := by
  intro name raw fuel a _
  cases a with
  | lexA n l c m => exact ⟨rfl, .inl ⟨n, l, c, m, rfl, rfl⟩⟩
  | parseA n l c m => exact ⟨rfl, .inr ⟨n, l, c, m, rfl, rfl⟩⟩

theorem c7_diag_format_amended_w :
    (Abort.lexA "f" 1 1 "Expected !=, got !\n").exitCode = 69 ∧
    ((∃ n l c m, Abort.lexA "f" 1 1 "Expected !=, got !\n" = .lexA n l c m ∧
        (Abort.lexA "f" 1 1 "Expected !=, got !\n").renderLine =
          n ++ ":" ++ Nat.repr l ++ ":" ++ Nat.repr c ++ " Lexing error. " ++ m) ∨
     (∃ n l c m, Abort.lexA "f" 1 1 "Expected !=, got !\n" = .parseA n l c m ∧
        (Abort.lexA "f" 1 1 "Expected !=, got !\n").renderLine =
          n ++ ":" ++ Nat.repr l ++ ":" ++ Nat.repr c ++ " Error: " ++ m)) :=
  c7_diag_format_amended "f" "!" 32 (.lexA "f" 1 1 "Expected !=, got !\n") rfl

/-- C8: the program `goto a` / `goto b` parses with `labelsGotoed = {a, b}`
and nothing declared; the end-of-program check aborts naming whichever
undeclared label its enumeration of the set visits first, and the two
enumerations of the same two-element set produce different diagnostics.
CPython iterates `set` objects of strings in string-hash order, which is
randomized per process, so the named label is not a function of the source
text. -/
theorem c8_label_report_order : ∃ st2 : PState,
    translatePhaseRun "f" "goto a\ngoto b\n" 32 = .ok st2 ∧
    st2.labelsGotoed = ["a", "b"] ∧ st2.labelsDeclared = [] ∧
    List.Perm ["b", "a"] st2.labelsGotoed ∧
    checkLabels "f" st2.curToken st2.labelsDeclared ["a", "b"] =
      .err (.parseA "f" st2.curToken.curLine st2.curToken.linePos
        "Attempting to GOTO to undeclared label: a") ∧
    checkLabels "f" st2.curToken st2.labelsDeclared ["b", "a"] =
      .err (.parseA "f" st2.curToken.curLine st2.curToken.linePos
        "Attempting to GOTO to undeclared label: b") := by
  exact ⟨_, rfl, rfl, rfl, List.Perm.swap "a" "b" [], rfl, rfl⟩

/-- C9: the `let` branch performs its first-occurrence declaration
(`declareVar`, which always leaves the current identifier a member of
`symbols`) before `expression` parses the initializer, so a `let` whose
right-hand side references the variable being defined — here `let x = x + 1`
with `x` never previously declared — translates successfully instead of
aborting with use-before-definition. -/
theorem c9_let_self_reference :
    (∀ st : PState, st.curToken.text ∈ (declareVar st).symbols) ∧
    translateRun "f" "let x = x + 1\n" 32 =
      .ok ⟨"#include <stdio.h>\nint main(void) \x7b\nfloat x;\n",
           "x=x+1;\nreturn 0;\n\x7d\n"⟩ := by
  constructor
  · intro st
    by_cases h : st.curToken.text ∈ st.symbols
    · simp [declareVar, if_pos h, h]
    · simp [declareVar, if_neg h]
  · rfl

/-- The buffer invariant established by `Lexer.__init__`: the appended
trailing newline is the last character of the buffer. -/
def lastNl (st : LexState) : Prop :=
  st.source.getD (st.source.length - 1) '\x00' = '\n'

/-- The buffer contains no literal NUL character (so the null sentinel is
seen exactly when the cursor is past the end of the buffer). -/
def noNul (st : LexState) : Prop := '\x00' ∉ st.source

theorem nextChar_source (st : LexState) : (nextChar st).source = st.source := by
  simp only [nextChar, nextCharA]
  split <;> rfl

theorem nextChar_pos (st : LexState) : (nextChar st).curPos = st.curPos + 1 := by
  simp only [nextChar, nextCharA]
  split <;> rfl

theorem nextChar_srcName (st : LexState) : (nextChar st).srcName = st.srcName := by
  simp only [nextChar, nextCharA]
  split <;> rfl

theorem curChar_default (st : LexState) (h : st.source.length ≤ st.curPos) :
    curChar st = '\x00' :=
  List.getD_eq_default _ _ h

theorem pos_lt_of_curChar_ne (st : LexState) (h : curChar st ≠ '\x00') :
    st.curPos < st.source.length := by
  by_contra h2
  push_neg at h2
  exact h (curChar_default st h2)

theorem pos_ge_of_curChar_nul (st : LexState) (hN : noNul st) (h : curChar st = '\x00') :
    st.source.length ≤ st.curPos := by
  by_contra h2
  push_neg at h2
  rw [curChar, List.getD_eq_getElem _ _ h2] at h
  exact hN (h ▸ List.getElem_mem h2)

theorem lastNl_transport {st st2 : LexState} (h : st2.source = st.source) (hL : lastNl st) :
    lastNl st2 := by
  rw [lastNl, h]
  exact hL

theorem noNul_transport {st st2 : LexState} (h : st2.source = st.source) (hN : noNul st) :
    noNul st2 := by
  rw [noNul, h]
  exact hN

/-- If the cursor is strictly inside the buffer and the current character is
not a newline, then (because the last character is a newline) the cursor is
not at the last position. -/
theorem pos_succ_lt (st : LexState) (hL : lastNl st) (hpos : st.curPos < st.source.length)
    (h : curChar st ≠ '\n') : st.curPos + 1 < st.source.length := by
  rcases Nat.lt_or_ge (st.curPos + 1) st.source.length with h1 | h1
  · exact h1
  · have h2 : st.curPos = st.source.length - 1 := by omega
    exact absurd (by rw [curChar, h2]; exact hL) h

theorem skipWhitespace_spec : ∀ (fuel : Nat) (st : LexState),
    st.source.length + 1 ≤ st.curPos + fuel → 1 ≤ fuel →
    ∃ st2, skipWhitespace fuel st = .ok st2 ∧ st2.source = st.source ∧
      st2.srcName = st.srcName ∧ st.curPos ≤ st2.curPos ∧
      isWsChar (curChar st2) = false ∧
      (lastNl st → st.curPos < st.source.length → st2.curPos < st.source.length) := by
  intro fuel
  induction fuel with
  | zero => intro st _ h1; omega
  | succ fuel ih =>
    intro st hf _
    by_cases hw : isWsChar (curChar st) = true
    · have hne : curChar st ≠ '\x00' := by
        intro h0; rw [h0] at hw; exact absurd hw (by decide)
      have hnl : curChar st ≠ '\n' := by
        intro h0; rw [h0] at hw; exact absurd hw (by decide)
      have hlt : st.curPos < st.source.length := pos_lt_of_curChar_ne st hne
      have hf2 : (nextChar st).source.length + 1 ≤ (nextChar st).curPos + fuel := by
        rw [nextChar_source, nextChar_pos]; omega
      have h1f : 1 ≤ fuel := by omega
      obtain ⟨st2, e1, e2, e3, e4, e5, e6⟩ := ih (nextChar st) hf2 h1f
      refine ⟨st2, ?_, ?_, ?_, ?_, e5, ?_⟩
      · simp only [skipWhitespace, hw, if_true]; exact e1
      · rw [e2, nextChar_source]
      · rw [e3, nextChar_srcName]
      · rw [nextChar_pos] at e4; omega
      · intro hLa hpos
        have hstep := pos_succ_lt st hLa hpos hnl
        have hLb : lastNl (nextChar st) := lastNl_transport (nextChar_source st) hLa
        have := e6 hLb (by rw [nextChar_pos, nextChar_source]; exact hstep)
        rw [nextChar_source] at this
        exact this
    · have hw2 : isWsChar (curChar st) = false := by
        cases h : isWsChar (curChar st)
        · rfl
        · exact absurd h hw
      exact ⟨st, by simp only [skipWhitespace, hw2]; rfl, rfl, rfl, le_refl _, hw2,
        fun _ h => h⟩

theorem skipCommentLoop_spec : ∀ (fuel : Nat) (st : LexState),
    (∃ q, st.curPos ≤ q ∧ q < st.source.length ∧ st.source.getD q '\x00' = '\n') →
    st.source.length + 1 ≤ st.curPos + fuel →
    ∃ st2, skipCommentLoop fuel st = .ok st2 ∧ st2.source = st.source ∧
      st2.srcName = st.srcName ∧ st.curPos ≤ st2.curPos ∧
      st2.curPos < st.source.length ∧ curChar st2 = '\n' := by
  intro fuel
  induction fuel with
  | zero =>
    intro st hq hf
    obtain ⟨q, h1, h2, _⟩ := hq
    omega
  | succ fuel ih =>
    intro st hq hf
    by_cases hc : curChar st = '\n'
    · have hlt : st.curPos < st.source.length :=
        pos_lt_of_curChar_ne st (by rw [hc]; decide)
      exact ⟨st, by simp only [skipCommentLoop, hc, if_pos rfl]; rfl, rfl, rfl,
        le_refl _, hlt, hc⟩
    · obtain ⟨q, h1, h2, h3⟩ := hq
      have hqe : q ≠ st.curPos := by
        intro h0
        exact hc (by rw [curChar, ← h0]; exact h3)
      have hq2 : ∃ q2, (nextChar st).curPos ≤ q2 ∧ q2 < (nextChar st).source.length ∧
          (nextChar st).source.getD q2 '\x00' = '\n' := by
        refine ⟨q, ?_, ?_, ?_⟩
        · rw [nextChar_pos]; omega
        · rw [nextChar_source]; exact h2
        · rw [nextChar_source]; exact h3
      have hf2 : (nextChar st).source.length + 1 ≤ (nextChar st).curPos + fuel := by
        rw [nextChar_source, nextChar_pos]; omega
      obtain ⟨st2, e1, e2, e3, e4, e5, e6⟩ := ih (nextChar st) hq2 hf2
      rw [nextChar_source] at e2 e5
      rw [nextChar_srcName] at e3
      rw [nextChar_pos] at e4
      exact ⟨st2, by simp only [skipCommentLoop, if_neg hc]; exact e1, e2, e3,
        by omega, e5, e6⟩

theorem scanStr_spec : ∀ (fuel : Nat) (st : LexState),
    lastNl st → st.curPos < st.source.length →
    st.source.length + 1 ≤ st.curPos + fuel →
    (∃ a, scanStr fuel st = .err a) ∨
    (∃ st2, scanStr fuel st = .ok st2 ∧ st2.source = st.source ∧ st2.srcName = st.srcName ∧
      st.curPos ≤ st2.curPos ∧ st2.curPos < st.source.length ∧ curChar st2 = '"') := by
  intro fuel
  induction fuel with
  | zero => intro st _ h1 h2; omega
  | succ fuel ih =>
    intro st hL hpos hf
    by_cases hq : curChar st = '"'
    · exact .inr ⟨st, by simp only [scanStr, hq, if_pos rfl]; rfl, rfl, rfl, le_refl _, hpos, hq⟩
    · by_cases hil : isIllegalStrChar (curChar st) = true
      · exact .inl ⟨_, by simp only [scanStr, if_neg hq, hil, if_true]; rfl⟩
      · have hnl : curChar st ≠ '\n' := by
          intro h0; rw [h0] at hil; exact absurd (by decide : isIllegalStrChar '\n' = true) hil
        have hstep := pos_succ_lt st hL hpos hnl
        have hL2 : lastNl (nextChar st) := lastNl_transport (nextChar_source st) hL
        have hpos2 : (nextChar st).curPos < (nextChar st).source.length := by
          rw [nextChar_pos, nextChar_source]; exact hstep
        have hf2 : (nextChar st).source.length + 1 ≤ (nextChar st).curPos + fuel := by
          rw [nextChar_source, nextChar_pos]; omega
        have hil2 : isIllegalStrChar (curChar st) = false := by
          cases h : isIllegalStrChar (curChar st)
          · rfl
          · exact absurd h hil
        rcases ih (nextChar st) hL2 hpos2 hf2 with ⟨a, ha⟩ | ⟨st2, e1, e2, en, e3, e4, e5⟩
        · exact .inl ⟨a, by simp only [scanStr, if_neg hq, hil2]; exact ha⟩
        · rw [nextChar_source] at e2 e4
          rw [nextChar_srcName] at en
          rw [nextChar_pos] at e3
          exact .inr ⟨st2, by simp only [scanStr, if_neg hq, hil2]; exact e1, e2, en,
            by omega, e4, e5⟩

theorem scanDigits_spec : ∀ (fuel : Nat) (st : LexState),
    st.source.length + 1 ≤ st.curPos + fuel → 1 ≤ fuel →
    ∃ st2, scanDigits fuel st = .ok st2 ∧ st2.source = st.source ∧ st2.srcName = st.srcName ∧
      st.curPos ≤ st2.curPos ∧ (peekChar st2).isDigit = false ∧
      (st2 = st ∨ ((st.source.getD st2.curPos '\x00').isDigit = true ∧
        st2.curPos < st.source.length)) := by
  intro fuel
  induction fuel with
  | zero => intro st _ h1; omega
  | succ fuel ih =>
    intro st hf _
    by_cases hd : (peekChar st).isDigit = true
    · have hne : peekChar st ≠ '\x00' := by
        intro h0; rw [h0] at hd; exact absurd hd (by decide)
      have hlt : st.curPos + 1 < st.source.length := by
        by_contra h2
        push_neg at h2
        exact hne (List.getD_eq_default _ _ h2)
      have hf2 : (nextChar st).source.length + 1 ≤ (nextChar st).curPos + fuel := by
        rw [nextChar_source, nextChar_pos]; omega
      have h1f : 1 ≤ fuel := by omega
      obtain ⟨st2, e1, e2, en, e3, e4, e5⟩ := ih (nextChar st) hf2 h1f
      rw [nextChar_source] at e2
      rw [nextChar_srcName] at en
      rw [nextChar_pos] at e3
      refine ⟨st2, by simp only [scanDigits, hd, if_true]; exact e1, e2, en, by omega, e4, ?_⟩
      rcases e5 with h5 | ⟨h5, h6⟩
      · right
        constructor
        · rw [h5, nextChar_pos]
          exact hd
        · rw [h5, nextChar_pos]
          exact hlt
      · rw [nextChar_source] at h5 h6
        exact .inr ⟨h5, h6⟩
    · have hd2 : (peekChar st).isDigit = false := by
        cases h : (peekChar st).isDigit
        · rfl
        · exact absurd h hd
      exact ⟨st, by simp only [scanDigits, hd2]; rfl, rfl, rfl, le_refl _, hd2, .inl rfl⟩

theorem scanAlpha_spec : ∀ (fuel : Nat) (st : LexState),
    st.source.length + 1 ≤ st.curPos + fuel → 1 ≤ fuel →
    ∃ st2, scanAlpha fuel st = .ok st2 ∧ st2.source = st.source ∧ st2.srcName = st.srcName ∧
      st.curPos ≤ st2.curPos ∧ (peekChar st2).isAlpha = false ∧
      (st2 = st ∨ ((st.source.getD st2.curPos '\x00').isAlpha = true ∧
        st2.curPos < st.source.length)) := by
  intro fuel
  induction fuel with
  | zero => intro st _ h1; omega
  | succ fuel ih =>
    intro st hf _
    by_cases hd : (peekChar st).isAlpha = true
    · have hne : peekChar st ≠ '\x00' := by
        intro h0; rw [h0] at hd; exact absurd hd (by decide)
      have hlt : st.curPos + 1 < st.source.length := by
        by_contra h2
        push_neg at h2
        exact hne (List.getD_eq_default _ _ h2)
      have hf2 : (nextChar st).source.length + 1 ≤ (nextChar st).curPos + fuel := by
        rw [nextChar_source, nextChar_pos]; omega
      have h1f : 1 ≤ fuel := by omega
      obtain ⟨st2, e1, e2, en, e3, e4, e5⟩ := ih (nextChar st) hf2 h1f
      rw [nextChar_source] at e2
      rw [nextChar_srcName] at en
      rw [nextChar_pos] at e3
      refine ⟨st2, by simp only [scanAlpha, hd, if_true]; exact e1, e2, en, by omega, e4, ?_⟩
      rcases e5 with h5 | ⟨h5, h6⟩
      · right
        constructor
        · rw [h5, nextChar_pos]
          exact hd
        · rw [h5, nextChar_pos]
          exact hlt
      · rw [nextChar_source] at h5 h6
        exact .inr ⟨h5, h6⟩
    · have hd2 : (peekChar st).isAlpha = false := by
        cases h : (peekChar st).isAlpha
        · rfl
        · exact absurd h hd
      exact ⟨st, by simp only [scanAlpha, hd2]; rfl, rfl, rfl, le_refl _, hd2, .inl rfl⟩

theorem peek_ne_nul_lt (s1 : LexState) (h0 : peekChar s1 ≠ '\x00') :
    s1.curPos + 1 < s1.source.length := by
  by_contra h2
  push_neg at h2
  exact h0 (List.getD_eq_default _ _ h2)

theorem peek_succ_lt (s1 : LexState) (hL : lastNl s1) (h0 : peekChar s1 ≠ '\x00')
    (hnl : peekChar s1 ≠ '\n') : s1.curPos + 2 < s1.source.length := by
  have h1 := peek_ne_nul_lt s1 h0
  rcases Nat.lt_or_ge (s1.curPos + 2) s1.source.length with h | h
  · exact h
  · have h3 : s1.curPos + 1 = s1.source.length - 1 := by omega
    exact absurd (by rw [peekChar, h3]; exact hL) hnl

/-- What one successful `getToken` step guarantees about the produced state:
the buffer and source name are untouched, the cursor strictly advances, an
end-of-input token is produced only with the entry cursor already past the
buffer, the only token whose consumption moves the cursor to (or past) the
buffer length from strictly inside it is a newline, and from strictly inside
the buffer the cursor never moves past the buffer length. -/
def DispatchPost (s1 st2 : LexState) (t : Token) : Prop :=
  st2.source = s1.source ∧ st2.srcName = s1.srcName ∧ s1.curPos < st2.curPos ∧
  (t.kind = .EOF → s1.source.length ≤ s1.curPos) ∧
  (s1.source.length ≤ st2.curPos → s1.source.length ≤ s1.curPos ∨ t.kind = .NEWLINE) ∧
  (s1.curPos < s1.source.length → st2.curPos ≤ s1.source.length)

theorem post_scan (s1 se : LexState) (t : Token) (hkind : t.kind ≠ TokenType.EOF)
    (hsrc : se.source = s1.source) (hname : se.srcName = s1.srcName)
    (hpos : s1.curPos ≤ se.curPos) (hbound : se.curPos + 1 < s1.source.length) :
    DispatchPost s1 (nextChar se) t := by
  refine ⟨by rw [nextChar_source, hsrc], by rw [nextChar_srcName, hname],
    by rw [nextChar_pos]; omega, fun h => absurd h hkind, ?_, ?_⟩
  · intro hx
    rw [nextChar_pos] at hx
    exact absurd hx (by omega)
  · intro _
    rw [nextChar_pos]
    omega

theorem post_double (s1 : LexState) (t : Token) (hkind : t.kind ≠ TokenType.EOF)
    (hbound : s1.curPos + 2 < s1.source.length) :
    DispatchPost s1 (nextChar (nextChar s1)) t := by
  refine ⟨by rw [nextChar_source, nextChar_source],
    by rw [nextChar_srcName, nextChar_srcName],
    by rw [nextChar_pos, nextChar_pos]; omega, fun h => absurd h hkind, ?_, ?_⟩
  · intro hx
    rw [nextChar_pos, nextChar_pos] at hx
    exact absurd hx (by omega)
  · intro _
    rw [nextChar_pos, nextChar_pos]
    omega

theorem post_newline (s1 : LexState) (t : Token) (hkind : t.kind = TokenType.NEWLINE)
    (hlt : s1.curPos < s1.source.length) : DispatchPost s1 (nextChar s1) t := by
  refine ⟨nextChar_source s1, nextChar_srcName s1, by rw [nextChar_pos]; omega, ?_,
    fun _ => .inr hkind, ?_⟩
  · intro h
    rw [hkind] at h
    exact absurd h (by decide)
  · intro _
    rw [nextChar_pos]
    omega

theorem post_eof (s1 : LexState) (t : Token) (hge : s1.source.length ≤ s1.curPos) :
    DispatchPost s1 (nextChar s1) t :=
  ⟨nextChar_source s1, nextChar_srcName s1, by rw [nextChar_pos]; omega,
    fun _ => hge, fun _ => .inl hge, fun h => absurd h (by omega)⟩

theorem keywordKind_kinds (t : String) (k : TokenType) (h : keywordKind t = some k) :
    k ≠ TokenType.EOF ∧ k ≠ TokenType.NEWLINE := by
  unfold keywordKind at h
  cases hf : keywordList.find? (fun p => p.1 == t) with
  | none => rw [hf] at h; cases h
  | some p =>
    rw [hf] at h
    injection h with h2
    subst h2
    have hp : p ∈ keywordList := List.mem_of_find?_eq_some hf
    have hall : ∀ q ∈ keywordList, q.2 ≠ TokenType.EOF ∧ q.2 ≠ TokenType.NEWLINE := by decide
    exact hall p hp

theorem kwclass_ne (t : String) :
    (match keywordKind t with | some k => k | none => TokenType.IDENT) ≠ TokenType.EOF ∧
    (match keywordKind t with | some k => k | none => TokenType.IDENT) ≠
      TokenType.NEWLINE := by
  cases h : keywordKind t with
  | none => exact (by decide)
  | some k => exact keywordKind_kinds t k h

/-- A scan loop that ended strictly inside the buffer on a character that is
not a newline did not end at the last position. -/
theorem scancase_bound (s1 sa2 : LexState) (p : Char → Bool) (hpn : p '\n' = false)
    (hL : lastNl s1)
    (hcase : sa2 = s1 ∨ (p (s1.source.getD sa2.curPos '\x00') = true ∧
      sa2.curPos < s1.source.length))
    (hfirst : s1.curPos + 1 < s1.source.length) :
    sa2.curPos + 1 < s1.source.length := by
  rcases hcase with rfl | ⟨hdig, hlt⟩
  · exact hfirst
  · rcases Nat.lt_or_ge (sa2.curPos + 1) s1.source.length with h | h
    · exact h
    · have h2 : sa2.curPos = s1.source.length - 1 := by omega
      rw [h2, hL] at hdig
      rw [hpn] at hdig
      exact absurd hdig (by decide)

theorem stringBranch_cases (s1 : LexState) (hL : lastNl s1) (hq : curChar s1 = '"') :
    (∃ a, stringBranch s1 = .err a) ∨
    (∃ t st2, stringBranch s1 = .ok (t, st2) ∧ DispatchPost s1 st2 t ∧
      t.kind = .STRING) := by
  have h0 : curChar s1 ≠ '\x00' := by rw [hq]; decide
  have hplt : s1.curPos < s1.source.length := pos_lt_of_curChar_ne s1 h0
  have hnl : curChar s1 ≠ '\n' := by rw [hq]; decide
  have hp1 : s1.curPos + 1 < s1.source.length := pos_succ_lt s1 hL hplt hnl
  have hL2 : lastNl (nextChar s1) := lastNl_transport (nextChar_source s1) hL
  have hpos2 : (nextChar s1).curPos < (nextChar s1).source.length := by
    rw [nextChar_pos, nextChar_source]; exact hp1
  have hf2 : (nextChar s1).source.length + 1 ≤ (nextChar s1).curPos + (s1.source.length + 1) := by
    rw [nextChar_source, nextChar_pos]; omega
  rcases scanStr_spec (s1.source.length + 1) (nextChar s1) hL2 hpos2 hf2 with
    ⟨a, ha⟩ | ⟨se, e1, e2, en, e3, e4, e5⟩
  · refine .inl ⟨a, ?_⟩
    simp only [stringBranch]
    rw [ha]
    rfl
  · rw [nextChar_source] at e2 e4
    rw [nextChar_srcName] at en
    rw [nextChar_pos] at e3
    have hLse : lastNl se := lastNl_transport e2 hL
    have hnlse : curChar se ≠ '\n' := by rw [e5]; decide
    have hb : se.curPos + 1 < s1.source.length := by
      have h := pos_succ_lt se hLse (by rw [e2]; exact e4) hnlse
      rw [e2] at h
      exact h
    refine .inr ⟨⟨sliceStr se.source (nextChar s1).curPos se.curPos, .STRING,
      se.curLine, se.linePos⟩, nextChar se, ?_, ?_, rfl⟩
    · simp only [stringBranch]
      rw [e1]
      rfl
    · exact post_scan s1 se _ (show TokenType.STRING ≠ TokenType.EOF by decide) e2 en
        (by omega) hb

theorem numberBranch_cases (s1 : LexState) (hL : lastNl s1)
    (hdg : (curChar s1).isDigit = true) :
    (∃ a, numberBranch s1 = .err a) ∨
    (∃ t st2, numberBranch s1 = .ok (t, st2) ∧ DispatchPost s1 st2 t ∧
      t.kind = .NUMBER) := by
  have h0 : curChar s1 ≠ '\x00' := by
    intro h; rw [h] at hdg; exact absurd hdg (by decide)
  have hplt : s1.curPos < s1.source.length := pos_lt_of_curChar_ne s1 h0
  have hnl : curChar s1 ≠ '\n' := by
    intro h; rw [h] at hdg; exact absurd hdg (by decide)
  have hp1 : s1.curPos + 1 < s1.source.length := pos_succ_lt s1 hL hplt hnl
  obtain ⟨sa2, e1, e2, en, e3, e4, e5⟩ :=
    scanDigits_spec (s1.source.length + 1) s1 (by omega) (by omega)
  have hb : sa2.curPos + 1 < s1.source.length :=
    scancase_bound s1 sa2 Char.isDigit (by decide) hL e5 hp1
  by_cases hdot : peekChar sa2 = '.'
  · by_cases hd2 : (peekChar (nextChar sa2)).isDigit = true
    · have hLsa2 : lastNl sa2 := lastNl_transport e2 hL
      have hb2 : sa2.curPos + 2 < s1.source.length := by
        have h := peek_succ_lt sa2 hLsa2 (by rw [hdot]; decide) (by rw [hdot]; decide)
        rw [e2] at h
        exact h
      have hfb : (nextChar sa2).source.length + 1 ≤
          (nextChar sa2).curPos + (s1.source.length + 1) := by
        rw [nextChar_source, nextChar_pos, e2]
        omega
      obtain ⟨sc, f1, f2, fn, f3, f4, f5⟩ :=
        scanDigits_spec (s1.source.length + 1) (nextChar sa2) hfb (by omega)
      rw [nextChar_source, e2] at f2
      rw [nextChar_srcName, en] at fn
      rw [nextChar_pos] at f3
      have hbc : sc.curPos + 1 < s1.source.length := by
        rw [nextChar_source, e2] at f5
        rcases f5 with h5 | ⟨hdig2, hlt2⟩
        · rw [h5, nextChar_pos]
          omega
        · rcases Nat.lt_or_ge (sc.curPos + 1) s1.source.length with h | h
          · exact h
          · have h2 : sc.curPos = s1.source.length - 1 := by omega
            rw [h2, hL] at hdig2
            exact absurd hdig2 (by decide)
      refine .inr ⟨⟨sliceStr sc.source s1.curPos (sc.curPos + 1), .NUMBER,
        sc.curLine, sc.linePos⟩, nextChar sc, ?_, ?_, rfl⟩
      · simp only [numberBranch]
        rw [e1]
        show (if peekChar sa2 = '.' then _ else _) = _
        rw [if_pos hdot]
        rw [if_neg (by rw [hd2]; exact fun h => h rfl)]
        rw [f1]
        rfl
      · exact post_scan s1 sc _ (show TokenType.NUMBER ≠ TokenType.EOF by decide) f2 fn
          (by omega) hbc
    · refine .inl ⟨.lexA (nextChar sa2).srcName (nextChar sa2).curLine (nextChar sa2).linePos
        ("Illegal character in number: " ++ String.mk [peekChar (nextChar sa2)]), ?_⟩
      simp only [numberBranch]
      rw [e1]
      show (if peekChar sa2 = '.' then _ else _) = _
      rw [if_pos hdot]
      rw [if_pos hd2]
  · refine .inr ⟨⟨sliceStr sa2.source s1.curPos (sa2.curPos + 1), .NUMBER,
      sa2.curLine, sa2.linePos⟩, nextChar sa2, ?_, ?_, rfl⟩
    · simp only [numberBranch]
      rw [e1]
      show (if peekChar sa2 = '.' then _ else _) = _
      rw [if_neg hdot]
    · exact post_scan s1 sa2 _ (show TokenType.NUMBER ≠ TokenType.EOF by decide) e2 en e3 hb

theorem identBranch_cases (s1 : LexState) (hL : lastNl s1)
    (hal : (curChar s1).isAlpha = true) :
    (∃ a, identBranch s1 = .err a) ∨
    (∃ t st2, identBranch s1 = .ok (t, st2) ∧ DispatchPost s1 st2 t ∧
      t.kind ≠ .EOF ∧ t.kind ≠ .NEWLINE) := by
  have h0 : curChar s1 ≠ '\x00' := by
    intro h; rw [h] at hal; exact absurd hal (by decide)
  have hplt : s1.curPos < s1.source.length := pos_lt_of_curChar_ne s1 h0
  have hnl : curChar s1 ≠ '\n' := by
    intro h; rw [h] at hal; exact absurd hal (by decide)
  have hp1 : s1.curPos + 1 < s1.source.length := pos_succ_lt s1 hL hplt hnl
  obtain ⟨sa2, e1, e2, en, e3, e4, e5⟩ :=
    scanAlpha_spec (s1.source.length + 1) s1 (by omega) (by omega)
  have hb : sa2.curPos + 1 < s1.source.length :=
    scancase_bound s1 sa2 Char.isAlpha (by decide) hL e5 hp1
  refine .inr ⟨⟨sliceStr sa2.source s1.curPos (sa2.curPos + 1),
    match keywordKind (sliceStr sa2.source s1.curPos (sa2.curPos + 1)) with
      | some k => k
      | none => TokenType.IDENT, sa2.curLine, sa2.linePos⟩, nextChar sa2, ?_, ?_, ?_, ?_⟩
  · simp only [identBranch]
    rw [e1]
    rfl
  · exact post_scan s1 sa2 _ (kwclass_ne _).1 e2 en e3 hb
  · exact (kwclass_ne _).1
  · exact (kwclass_ne _).2

theorem tokenDispatch_cases (s1 : LexState) (hL : lastNl s1) (hN : noNul s1) :
    (∃ a, tokenDispatch s1 = .err a) ∨
    (∃ t st2, tokenDispatch s1 = .ok (t, st2) ∧ DispatchPost s1 st2 t) := by
  simp only [tokenDispatch]
  by_cases h1 : curChar s1 = '+'
  · rw [if_pos h1]
    exact .inr ⟨_, _, rfl, post_scan s1 s1 _
      (show TokenType.PLUS ≠ TokenType.EOF by decide) rfl rfl (le_refl _)
      (pos_succ_lt s1 hL (pos_lt_of_curChar_ne s1 (by rw [h1]; decide)) (by rw [h1]; decide))⟩
  rw [if_neg h1]
  by_cases h2 : curChar s1 = '-'
  · rw [if_pos h2]
    exact .inr ⟨_, _, rfl, post_scan s1 s1 _
      (show TokenType.MINUS ≠ TokenType.EOF by decide) rfl rfl (le_refl _)
      (pos_succ_lt s1 hL (pos_lt_of_curChar_ne s1 (by rw [h2]; decide)) (by rw [h2]; decide))⟩
  rw [if_neg h2]
  by_cases h3 : curChar s1 = '*'
  · rw [if_pos h3]
    exact .inr ⟨_, _, rfl, post_scan s1 s1 _
      (show TokenType.ASTERISK ≠ TokenType.EOF by decide) rfl rfl (le_refl _)
      (pos_succ_lt s1 hL (pos_lt_of_curChar_ne s1 (by rw [h3]; decide)) (by rw [h3]; decide))⟩
  rw [if_neg h3]
  by_cases h4 : curChar s1 = '/'
  · rw [if_pos h4]
    exact .inr ⟨_, _, rfl, post_scan s1 s1 _
      (show TokenType.SLASH ≠ TokenType.EOF by decide) rfl rfl (le_refl _)
      (pos_succ_lt s1 hL (pos_lt_of_curChar_ne s1 (by rw [h4]; decide)) (by rw [h4]; decide))⟩
  rw [if_neg h4]
  by_cases h5 : curChar s1 = '='
  · rw [if_pos h5]
    by_cases hp : peekChar s1 = '='
    · rw [if_pos hp]
      exact .inr ⟨_, _, rfl, post_double s1 _
        (show TokenType.EQEQ ≠ TokenType.EOF by decide)
        (peek_succ_lt s1 hL (by rw [hp]; decide) (by rw [hp]; decide))⟩
    · rw [if_neg hp]
      exact .inr ⟨_, _, rfl, post_scan s1 s1 _
        (show TokenType.EQ ≠ TokenType.EOF by decide) rfl rfl (le_refl _)
        (pos_succ_lt s1 hL (pos_lt_of_curChar_ne s1 (by rw [h5]; decide)) (by rw [h5]; decide))⟩
  rw [if_neg h5]
  by_cases h6 : curChar s1 = '>'
  · rw [if_pos h6]
    by_cases hp : peekChar s1 = '='
    · rw [if_pos hp]
      exact .inr ⟨_, _, rfl, post_double s1 _
        (show TokenType.GTEQ ≠ TokenType.EOF by decide)
        (peek_succ_lt s1 hL (by rw [hp]; decide) (by rw [hp]; decide))⟩
    · rw [if_neg hp]
      exact .inr ⟨_, _, rfl, post_scan s1 s1 _
        (show TokenType.GT ≠ TokenType.EOF by decide) rfl rfl (le_refl _)
        (pos_succ_lt s1 hL (pos_lt_of_curChar_ne s1 (by rw [h6]; decide)) (by rw [h6]; decide))⟩
  rw [if_neg h6]
  by_cases h7 : curChar s1 = '<'
  · rw [if_pos h7]
    by_cases hp : peekChar s1 = '='
    · rw [if_pos hp]
      exact .inr ⟨_, _, rfl, post_double s1 _
        (show TokenType.LTEQ ≠ TokenType.EOF by decide)
        (peek_succ_lt s1 hL (by rw [hp]; decide) (by rw [hp]; decide))⟩
    · rw [if_neg hp]
      exact .inr ⟨_, _, rfl, post_scan s1 s1 _
        (show TokenType.LT ≠ TokenType.EOF by decide) rfl rfl (le_refl _)
        (pos_succ_lt s1 hL (pos_lt_of_curChar_ne s1 (by rw [h7]; decide)) (by rw [h7]; decide))⟩
  rw [if_neg h7]
  by_cases h8 : curChar s1 = '!'
  · rw [if_pos h8]
    by_cases hp : peekChar s1 = '='
    · rw [if_pos hp]
      exact .inr ⟨_, _, rfl, post_double s1 _
        (show TokenType.NOTEQ ≠ TokenType.EOF by decide)
        (peek_succ_lt s1 hL (by rw [hp]; decide) (by rw [hp]; decide))⟩
    · rw [if_neg hp]
      exact .inl ⟨_, rfl⟩
  rw [if_neg h8]
  by_cases h9 : curChar s1 = '"'
  · rw [if_pos h9]
    rcases stringBranch_cases s1 hL h9 with ⟨a, ha⟩ | ⟨t, st2, heq, hpost, -⟩
    · exact .inl ⟨a, ha⟩
    · exact .inr ⟨t, st2, heq, hpost⟩
  rw [if_neg h9]
  by_cases h10 : curChar s1 = '('
  · rw [if_pos h10]
    exact .inr ⟨_, _, rfl, post_scan s1 s1 _
      (show TokenType.LPARENT ≠ TokenType.EOF by decide) rfl rfl (le_refl _)
      (pos_succ_lt s1 hL (pos_lt_of_curChar_ne s1 (by rw [h10]; decide)) (by rw [h10]; decide))⟩
  rw [if_neg h10]
  by_cases h11 : curChar s1 = ')'
  · rw [if_pos h11]
    exact .inr ⟨_, _, rfl, post_scan s1 s1 _
      (show TokenType.RPARENT ≠ TokenType.EOF by decide) rfl rfl (le_refl _)
      (pos_succ_lt s1 hL (pos_lt_of_curChar_ne s1 (by rw [h11]; decide)) (by rw [h11]; decide))⟩
  rw [if_neg h11]
  by_cases h12 : (curChar s1).isDigit = true
  · rw [if_pos h12]
    rcases numberBranch_cases s1 hL h12 with ⟨a, ha⟩ | ⟨t, st2, heq, hpost, -⟩
    · exact .inl ⟨a, ha⟩
    · exact .inr ⟨t, st2, heq, hpost⟩
  rw [if_neg h12]
  by_cases h13 : (curChar s1).isAlpha = true
  · rw [if_pos h13]
    rcases identBranch_cases s1 hL h13 with ⟨a, ha⟩ | ⟨t, st2, heq, hpost, -, -⟩
    · exact .inl ⟨a, ha⟩
    · exact .inr ⟨t, st2, heq, hpost⟩
  rw [if_neg h13]
  by_cases h14 : curChar s1 = '\n'
  · rw [if_pos h14]
    exact .inr ⟨_, _, rfl, post_newline s1 _ rfl
      (pos_lt_of_curChar_ne s1 (by rw [h14]; decide))⟩
  rw [if_neg h14]
  by_cases h15 : curChar s1 = '\x00'
  · rw [if_pos h15]
    exact .inr ⟨_, _, rfl, post_eof s1 _ (pos_ge_of_curChar_nul s1 hN h15)⟩
  rw [if_neg h15]
  exact .inl ⟨_, rfl⟩

theorem skipComment_spec (st : LexState) (hL : lastNl st) :
    ∃ st2, skipComment (st.source.length + 1) st = .ok st2 ∧ st2.source = st.source ∧
      st2.srcName = st.srcName ∧ st.curPos ≤ st2.curPos ∧
      (st.curPos < st.source.length → st2.curPos < st.source.length) := by
  by_cases hc : curChar st = '#'
  · have hlt : st.curPos < st.source.length :=
      pos_lt_of_curChar_ne st (by rw [hc]; decide)
    have hq : ∃ q, st.curPos ≤ q ∧ q < st.source.length ∧
        st.source.getD q '\x00' = '\n' := by
      refine ⟨st.source.length - 1, by omega, by omega, hL⟩
    obtain ⟨st2, e1, e2, e3, e4, e5, _⟩ :=
      skipCommentLoop_spec (st.source.length + 1) st hq (by omega)
    exact ⟨st2, by simp only [skipComment, if_pos hc]; exact e1, e2, e3, e4, fun _ => e5⟩
  · exact ⟨st, by simp only [skipComment, if_neg hc], rfl, rfl, le_refl _, fun h => h⟩

theorem getToken_cases (st0 : LexState) (hL : lastNl st0) (hN : noNul st0) :
    (∃ a, getToken st0 = .err a) ∨
    (∃ t st2, getToken st0 = .ok (t, st2) ∧ DispatchPost st0 st2 t) := by
  obtain ⟨sa, w1, w2, w3, w4, w5, w6⟩ :=
    skipWhitespace_spec (st0.source.length + 1) st0 (by omega) (by omega)
  have hLa : lastNl sa := lastNl_transport w2 hL
  have hCa : ∃ s1, skipComment (sa.source.length + 1) sa = .ok s1 ∧ s1.source = sa.source ∧
      s1.srcName = sa.srcName ∧ sa.curPos ≤ s1.curPos ∧
      (sa.curPos < sa.source.length → s1.curPos < sa.source.length) :=
    skipComment_spec sa hLa
  obtain ⟨s1, c1, c2, c3, c4, c5⟩ := hCa
  rw [w2] at c1
  have hsrc1 : s1.source = st0.source := by rw [c2, w2]
  have hname1 : s1.srcName = st0.srcName := by rw [c3, w3]
  have hL1 : lastNl s1 := lastNl_transport hsrc1 hL
  have hN1 : noNul s1 := noNul_transport hsrc1 hN
  have hpres : st0.curPos < st0.source.length → s1.curPos < st0.source.length := by
    intro h
    have h2 := w6 hL h
    have h3 := c5 (by rw [w2]; exact h2)
    rw [w2] at h3
    exact h3
  rcases tokenDispatch_cases s1 hL1 hN1 with ⟨a, ha⟩ | ⟨t, st2, heq, p1, p2, p3, p4, p5, p6⟩
  · refine .inl ⟨a, ?_⟩
    simp only [getToken]
    rw [w1]
    show (skipComment (st0.source.length + 1) sa).bind tokenDispatch = Res.err a
    rw [c1]
    show tokenDispatch s1 = Res.err a
    exact ha
  · refine .inr ⟨t, st2, ?_, ?_, ?_, ?_, ?_, ?_, ?_⟩
    · simp only [getToken]
      rw [w1]
      show (skipComment (st0.source.length + 1) sa).bind tokenDispatch = Res.ok (t, st2)
      rw [c1]
      show tokenDispatch s1 = Res.ok (t, st2)
      exact heq
    · rw [p1, hsrc1]
    · rw [p2, hname1]
    · omega
    · intro hk
      have h2 := p4 hk
      rw [hsrc1] at h2
      by_contra h3
      push_neg at h3
      exact absurd h2 (by have := hpres h3; omega)
    · intro hx
      rcases p5 (by rw [hsrc1]; exact hx) with h2 | h2
      · rw [hsrc1] at h2
        left
        by_contra h3
        push_neg at h3
        exact absurd h2 (by have := hpres h3; omega)
      · exact .inr h2
    · intro hx
      have h2 := p6 (by rw [hsrc1]; exact hpres hx)
      rw [hsrc1] at h2
      exact h2

theorem getToken_atEOF (st : LexState) (h : st.source.length ≤ st.curPos) :
    getToken st = .ok (⟨"\x00", .EOF, st.curLine, st.linePos⟩, nextChar st) := by
  have hc : curChar st = '\x00' := curChar_default st h
  have hsw : skipWhitespace (st.source.length + 1) st = .ok st := by
    simp only [skipWhitespace]
    rw [hc]
    rfl
  have hsc : skipComment (st.source.length + 1) st = .ok st := by
    simp only [skipComment]
    rw [hc]
    rfl
  simp only [getToken]
  rw [hsw]
  show (skipComment (st.source.length + 1) st).bind tokenDispatch = _
  rw [hsc]
  show tokenDispatch st = _
  simp only [tokenDispatch]
  rw [hc]
  rfl

/-- C10: once the cursor is at or beyond the buffer length the current
character is the null sentinel, and every subsequent `getToken` call — the
first and each later one — returns an end-of-input token again, leaving the
cursor at or beyond the buffer length. -/
theorem c10_eof_absorbing : ∀ (st : LexState) (n : Nat), st.source.length ≤ st.curPos →
    curChar st = '\x00' ∧
    ∃ t st2, getTokenN n st = .ok (t, st2) ∧ t.kind = .EOF ∧ t.text = "\x00" ∧
      st2.source = st.source ∧ st2.source.length ≤ st2.curPos := by
  intro st n
  induction n generalizing st with
  | zero =>
    intro h
    refine ⟨curChar_default st h, ⟨"\x00", .EOF, st.curLine, st.linePos⟩, nextChar st,
      getToken_atEOF st h, rfl, rfl, nextChar_source st, ?_⟩
    rw [nextChar_source, nextChar_pos]
    omega
  | succ n ih =>
    intro h
    refine ⟨curChar_default st h, ?_⟩
    have h2 : (nextChar st).source.length ≤ (nextChar st).curPos := by
      rw [nextChar_source, nextChar_pos]
      omega
    obtain ⟨-, t, st2, e1, e2, e3, e4, e5⟩ := ih (nextChar st) h2
    refine ⟨t, st2, ?_, e2, e3, by rw [e4, nextChar_source], e5⟩
    simp only [getTokenN]
    rw [getToken_atEOF st h]
    exact e1

theorem c10_eof_absorbing_w :
    ∃ t st2, getTokenN 2 ⟨"f", ['\n'], 1, 1, 1⟩ = .ok (t, st2) ∧ t.kind = .EOF := by
  obtain ⟨-, t, st2, e1, e2, -, -, -⟩ :=
    c10_eof_absorbing ⟨"f", ['\n'], 1, 1, 1⟩ 2 (by decide)
  exact ⟨t, st2, e1, e2⟩

theorem lexRun_spec : ∀ (fuel : Nat) (st : LexState), lastNl st → noNul st →
    st.curPos ≤ st.source.length → st.source.length + 2 ≤ st.curPos + fuel →
    lexRun fuel st ≠ .div ∧
    (∀ ts, lexRun fuel st = .ok ts →
      (∃ ts1 t1 t2, ts = ts1 ++ [t1, t2] ∧ t1.kind = .NEWLINE ∧ t2.kind = .EOF) ∨
      (st.source.length ≤ st.curPos ∧ ∃ t, ts = [t] ∧ t.kind = .EOF)) := by
  intro fuel
  induction fuel with
  | zero => intro st _ _ h1 h2; omega
  | succ fuel ih =>
    intro st hL hN hpos hf
    rcases Nat.lt_or_ge st.curPos st.source.length with hlt | hge
    · rcases getToken_cases st hL hN with ⟨a, ha⟩ | ⟨t, st2, heq, p1, p2, p3, p4, p5, p6⟩
      · have hrun : lexRun (fuel+1) st = .err a := by
          simp only [lexRun]
          rw [ha]
          rfl
        constructor
        · rw [hrun]
          exact fun h => Res.noConfusion h
        · intro ts hts
          rw [hrun] at hts
          exact Res.noConfusion hts
      · have hkne : ¬(t.kind = .EOF) := fun hk => absurd (p4 hk) (by omega)
        have hrun : lexRun (fuel+1) st = (lexRun fuel st2).bind (fun ts => .ok (t :: ts)) := by
          simp only [lexRun]
          rw [heq]
          show (if t.kind = .EOF then _ else _) = _
          rw [if_neg hkne]
        have hpos2 : st2.curPos ≤ st2.source.length := by
          rw [p1]
          exact p6 hlt
        have hf2 : st2.source.length + 2 ≤ st2.curPos + fuel := by
          rw [p1]
          omega
        obtain ⟨ihdiv, ihok⟩ := ih st2 (lastNl_transport p1 hL) (noNul_transport p1 hN)
          hpos2 hf2
        constructor
        · rw [hrun]
          cases hr : lexRun fuel st2 with
          | div => exact absurd hr ihdiv
          | err a => exact fun h => Res.noConfusion h
          | ok ts2 => exact fun h => Res.noConfusion h
        · intro ts hts
          rw [hrun] at hts
          cases hr : lexRun fuel st2 with
          | div => rw [hr] at hts; exact Res.noConfusion hts
          | err a => rw [hr] at hts; exact Res.noConfusion hts
          | ok ts2 =>
            rw [hr] at hts
            injection hts with h2
            subst h2
            rcases ihok ts2 hr with ⟨ts1, t1, t2, e1, e2, e3⟩ | ⟨hge2, t3, e1, e2⟩
            · exact .inl ⟨t :: ts1, t1, t2, by simp [e1], e2, e3⟩
            · rw [p1] at hge2
              rcases p5 hge2 with h5 | h5
              · exact absurd h5 (by omega)
              · exact .inl ⟨[], t, t3, by simp [e1], h5, e2⟩
    · have heof := getToken_atEOF st hge
      have hrun : lexRun (fuel+1) st =
          Res.ok [(⟨"\x00", TokenType.EOF, st.curLine, st.linePos⟩ : Token)] := by
        simp only [lexRun]
        rw [heof]
        simp [Res.bind]
      constructor
      · rw [hrun]
        exact fun h => Res.noConfusion h
      · intro ts hts
        rw [hrun] at hts
        injection hts with h2
        subst h2
        exact .inr ⟨hge, _, rfl, rfl⟩

theorem initLexer_lastNl (name raw : String) : lastNl (initLexer name raw) := by
  show (raw.toList ++ ['\n']).getD ((raw.toList ++ ['\n']).length - 1) '\x00' = '\n'
  rw [List.length_append]
  show (raw.toList ++ ['\n']).getD (raw.toList.length + 1 - 1) '\x00' = '\n'
  rw [Nat.add_sub_cancel]
  rw [List.getD_append_right raw.toList ['\n'] '\x00' raw.toList.length (le_refl _)]
  simp

theorem initLexer_noNul (name raw : String) (h : '\x00' ∉ raw.toList) :
    noNul (initLexer name raw) := by
  show '\x00' ∉ raw.toList ++ ['\n']
  intro hmem
  rcases List.mem_append.mp hmem with h1 | h1
  · exact h h1
  · simp at h1

/-- C3 counterexample: on the source `"a` — a string literal with no closing
quote — the very first `getToken` call aborts with the illegal-character
error at the appended trailing newline (line 1, column 3, the message names
the newline character), so the scan stops before ever reaching the
end-of-input sentinel and the run produces no newline or end-of-input
token at all. -/
theorem c3_unterminated_string_cex :
    tokenize "f" "\"a" = .err (.lexA "f" 1 3 "Illegal character in string: \n") ∧
    (∀ ts, tokenize "f" "\"a" ≠ .ok ts) := by
  constructor
  · rfl
  · intro ts h
    rw [show tokenize "f" "\"a" =
      Res.err (.lexA "f" 1 3 "Illegal character in string: \n") from rfl] at h
    exact Res.noConfusion h

/-- C3 amended: for every NUL-free source text, the lexer terminates — the
token run never diverges, in particular an unterminated string literal
aborts rather than looping — and whenever the run completes without an
abort, its token list ends with a newline token immediately followed by an
end-of-input token. -/
theorem c3_termination_amended : ∀ (name raw : String), '\x00' ∉ raw.toList →
    tokenize name raw ≠ .div ∧
    (∀ ts, tokenize name raw = .ok ts →
      ∃ ts1 t1 t2, ts = ts1 ++ [t1, t2] ∧ t1.kind = .NEWLINE ∧ t2.kind = .EOF) := by
  intro name raw hraw
  have hL := initLexer_lastNl name raw
  have hN := initLexer_noNul name raw hraw
  have hlen : (initLexer name raw).source.length = raw.length + 1 := by
    show (raw.toList ++ ['\n']).length = raw.length + 1
    rw [List.length_append]
    rfl
  have hpos0 : (initLexer name raw).curPos ≤ (initLexer name raw).source.length :=
    Nat.zero_le _
  have hf : (initLexer name raw).source.length + 2 ≤
      (initLexer name raw).curPos + (raw.length + 3) := by
    rw [hlen]
    show raw.length + 1 + 2 ≤ 0 + (raw.length + 3)
    omega
  obtain ⟨hdiv, hok⟩ := lexRun_spec (raw.length + 3) (initLexer name raw) hL hN hpos0 hf
  refine ⟨hdiv, ?_⟩
  intro ts hts
  rcases hok ts hts with h | ⟨hge, -⟩
  · exact h
  · rw [hlen] at hge
    have h0 : (initLexer name raw).curPos = 0 := rfl
    omega

theorem c3_termination_amended_w :
    tokenize "f" "x" ≠ .div ∧
    (∃ ts1 t1 t2, [(⟨"x", .IDENT, 1, 1⟩ : Token), ⟨"\n", .NEWLINE, 1, 2⟩,
        ⟨"\x00", .EOF, 2, 2⟩] = ts1 ++ [t1, t2] ∧
      t1.kind = .NEWLINE ∧ t2.kind = .EOF) := by
  obtain ⟨h1, h2⟩ := c3_termination_amended "f" "x" (by decide)
  exact ⟨h1, h2 _ rfl⟩
